import Mathlib

/-!
# Verification of the equilibrium pricing engine (Game-Theory-Project)

Shallow embedding of the dynamic-pricing engine found in `src/src/` of the
repository (`solverUtils.py`, `dynamicPricing.py`, `solveStrategy.py`,
`experiment.py`).  The engine builds a Z3 constraint system describing a
Wardrop equilibrium over a multigraph, solves it with one of two strategies,
extracts the model onto the graph and reports metrics.

Modelling conventions:
* Z3 expressions are data the Python code constructs; they are embedded as the
  AST `Expr` / `Cnstr` over rational-valued variables `VarName`.  A Z3 model is
  a valuation `VarName → ℚ`.
* A Python edge-attribute value that may be a plain number, a Z3 expression or
  absent/`None` is embedded as `Field`; Z3 numerals (which satisfy `is_expr`)
  are distinguished from plain Python numbers by the `exprVal` constructor.
* Python exceptions are embedded as `Except PyErr`; `do`-notation mirrors
  exception propagation out of the Python loops.
* The external solving oracle is abstracted as a boolean verdict (per trial
  price for the fall-back strategy), exactly as §6 of the specification treats
  it (satisfiable / not).
-/

namespace DP

/-- Python exception kinds raised by the embedded code paths. -/
inductive PyErr where
  | keyError
  | typeError
  | attributeError
  | zeroDivision
  | z3Error
  | nameError
deriving DecidableEq, Repr

/-- Names of the Z3 numeric unknowns allocated by `addVarsForSolver` and
`addConstraints`.  The Python code names variables by string formatting:
`f_{u}-{v}-{color}` for edge flows, `p_{u}-{v}-{color}` for unknown prices,
`flow_{i}_{j}` for route flows and `T_{i}` for the per-demand minimum cost.
Two Z3 calls `Real(name)` with the same name yield the same solver variable,
so variable identity is exactly the name, embedded structurally here. -/
inductive VarName where
  | fe (u v color : String)
  | price (u v color : String)
  | flow (i j : ℕ)
  | tvar (i : ℕ)
deriving DecidableEq, Repr

/-- A Python edge-attribute slot (`data['f_e']`, `data['price']`):
either absent / `None` (`missing`), a plain Python number (`num`),
a symbolic Z3 variable (`sym`), or a Z3 numeral produced by
`model.evaluate` (`exprVal`); `is_expr` is true of the last two. -/
inductive Field where
  | missing
  | num (q : ℚ)
  | sym (v : VarName)
  | exprVal (q : ℚ)
deriving DecidableEq, Repr

/-- Truth of `z3.is_expr` on the value held by a `Field`. -/
def Field.isExprF : Field → Bool
  | .sym _ => true
  | .exprVal _ => true
  | _ => false

/-- Edge attribute dictionary: `color` (mode tag), `k` (congestion
coefficient, always present per the loader invariant), `capacity`
(`None` embedded as `none`; `data.get('capacity', Int(500))` supplies 500),
`price` and `f_e` as dynamic fields. -/
structure EdgeData where
  color : String
  k : ℚ
  capacity : Option ℚ
  price : Field
  f_e : Field
deriving DecidableEq, Repr

/-- One multigraph edge as reported by `graph.edges(keys=True, data=True)`:
stored endpoints `u`, `v`, the parallel-edge key, and the attribute dict. -/
structure Edge where
  u : String
  v : String
  key : String
  data : EdgeData
deriving DecidableEq, Repr

/-- The network: the list of edges of the `networkx.MultiGraph`, in edge-report
order.  (Nodes carry no data used by the engine.) -/
abbrev Graph := List Edge

/-- One edge of a route as stored by `getAllPossibleRoutes`: a tuple
`(u, v, key, data_dict)` in traversal orientation.  `aliased` records whether
`data` is a reference to the graph's own attribute dict (true for edges taken
from `graph[u][v]`) or a detached snapshot (false for the synthetic
default-edge route, whose `default_attr` dict is not the dict stored in the
graph).  Mutations of the graph's dicts (`addVarsForSolver`) are visible to
the route exactly when `aliased` is true. -/
structure RouteEdge where
  u : String
  v : String
  key : String
  data : EdgeData
  aliased : Bool
deriving DecidableEq, Repr

/-- A route: an ordered list of traversed edges. -/
abbrev Route := List RouteEdge

/-- A demand dictionary `{'s': source, 't': target, 'd': amount}`. -/
structure Demand where
  s : String
  t : String
  d : ℚ
deriving DecidableEq, Repr

/-- An entry of `f_R_vars[i]`: normally the Z3 route-flow variable, but
`setPricesHighToLow` may replace a whole demand's entries by plain Python
numbers (the proportional-split shortcut). -/
inductive FRVal where
  | fvar (v : VarName)
  | fnum (q : ℚ)
deriving DecidableEq, Repr

/-- Embedded Z3 arithmetic expression over the engine's variables. -/
inductive Expr where
  | const (q : ℚ)
  | var (v : VarName)
  | add (a b : Expr)
  | sub (a b : Expr)
  | mul (a b : Expr)
deriving DecidableEq, Repr

/-- Embeds `z3.Sum` of a list of terms (left-associated addition; `Sum([])` never
occurs on the live paths, embedded as `0`). -/
def mkSum : List Expr → Expr
  | [] => .const 0
  | t :: ts => ts.foldl .add t

/-- Evaluation of an embedded expression under a model/valuation. -/
def evalE (m : VarName → ℚ) : Expr → ℚ
  | .const q => q
  | .var v => m v
  | .add a b => evalE m a + evalE m b
  | .sub a b => evalE m a - evalE m b
  | .mul a b => evalE m a * evalE m b

/-- The expression denoted by an `f_R_vars` entry when it is placed into a
constraint (a variable, or a Python number coerced by Z3 to a constant). -/
def frValExpr : FRVal → Expr
  | .fvar v => .var v
  | .fnum q => .const q

/-- Value of an `f_R_vars` entry under a model. -/
def evalFR (m : VarName → ℚ) (fr : FRVal) : ℚ := evalE m (frValExpr fr)

/-- Embedded Z3 boolean constraint as asserted by `solver.add`. -/
inductive Cnstr where
  | le (a b : Expr)
  | ge (a b : Expr)
  | eq (a b : Expr)
  | impl (a : Cnstr) (b : Cnstr)
  | andC (a b : Cnstr)
deriving DecidableEq, Repr

/-- Truth of a constraint under a model. -/
def holdsB (m : VarName → ℚ) : Cnstr → Bool
  | .le a b => decide (evalE m a ≤ evalE m b)
  | .ge a b => decide (evalE m b ≤ evalE m a)
  | .eq a b => decide (evalE m a = evalE m b)
  | .impl a b => !holdsB m a || holdsB m b
  | .andC a b => holdsB m a && holdsB m b

/-- List traversal with exception propagation: the embedded form of a Python
`for` loop whose body may raise, collecting one result per element. -/
def exMapM (f : α → Except PyErr β) : List α → Except PyErr (List β)
  | [] => .ok []
  | x :: xs =>
    match f x with
    | .error e => .error e
    | .ok y =>
      match exMapM f xs with
      | .error e => .error e
      | .ok ys => .ok (y :: ys)

/-- Python `enumerate` starting at `n`. -/
def enumFrom (n : ℕ) : List α → List (ℕ × α)
  | [] => []
  | x :: xs => (n, x) :: enumFrom (n + 1) xs

/-! ## Route enumeration (`getAllPossibleRoutes`, `src/src/solverUtils.py` 20-91) -/

/-- The neighbour ends of the edges incident to `u`, one entry per parallel
edge.  The multigraph DFS of `nx.all_simple_paths` (implemented over
`all_simple_edge_paths` since networkx 3.1, and networkx >= 3.4 is required
by `node_link_data(..., edges="edges")`) iterates `G.edges(node, keys=True)`
with one entry per parallel edge, so a neighbour reachable over k parallel
edges is visited k times and each node path is yielded once per
parallel-edge combination along it. -/
def neighborsOf (g : Graph) (u : String) : List String :=
  g.flatMap fun e =>
    if e.u = u then [e.v] else if e.v = u then [e.u] else []

/-- The parallel edges between `u` and `v` (`graph[u][v]`), as route-edge
tuples `(u, v, key, data_dict)` in traversal orientation, aliasing the graph's
attribute dicts. -/
def edgesBetween (g : Graph) (u v : String) : List RouteEdge :=
  g.filterMap fun e =>
    if (e.u = u ∧ e.v = v) ∨ (e.u = v ∧ e.v = u) then
      some ⟨u, v, e.key, e.data, true⟩
    else none

/-- Depth-first enumeration of the simple node-paths ending at `t`
(`nx.all_simple_paths`).  `path` is the current partial path, current node
first (reversed); `fuel` is the number of edges that may still be appended
(`cutoff` minus edges used).  Paths are emitted in depth-first discovery
order: at each node the neighbours are scanned in adjacency order, visited
nodes are skipped, and a neighbour equal to `t` completes a path. -/
def spAux (g : Graph) (t : String) : ℕ → List String → List (List String)
  | 0, _ => []
  | _ + 1, [] => []
  | fuel + 1, u :: rest =>
    ((neighborsOf g u).filter fun w => !(u :: rest).contains w).flatMap fun w =>
      if w = t then [(w :: u :: rest).reverse]
      else spAux g t fuel (w :: u :: rest)

/-- Embeds `nx.all_simple_paths(graph, s, t, cutoff)`: all simple node-paths
from `s` to `t` with at most `cutoff` edges, each yielded once per
parallel-edge combination along it (the multigraph behaviour of networkx 3.x,
which derives node paths from `all_simple_edge_paths`); for `s = t` the empty
edge path is yielded, i.e. the single-node path `[s]`. -/
def simplePaths (g : Graph) (s t : String) (cutoff : ℕ) : List (List String) :=
  if s = t then [[s]] else spAux g t cutoff [s]

/-- Embeds `itertools.product` over a list of option lists (first list varies
slowest, as in Python). -/
def cartProduct : List (List α) → List (List α)
  | [] => [[]]
  | xs :: rest => xs.flatMap fun x => (cartProduct rest).map (x :: ·)

/-- Consecutive pairs of a node path (the hops). -/
def hopsOf (p : List String) : List (String × String) := p.zip p.tail

/-- All edge-level routes realising one node path: the Cartesian product of
the parallel-edge choices at each hop. -/
def routesOfPath (g : Graph) (p : List String) : List Route :=
  cartProduct ((hopsOf p).map fun uv => edgesBetween g uv.1 uv.2)

/-- The attribute dict of the synthetic default edge:
`{'k': 1.0, 'capacity': 200, 'price': 100, 'color': 'personal'}`. -/
def synthData : EdgeData := ⟨"personal", 1, some 200, .num 100, .missing⟩

/-- Key of the synthetic default edge: `f"auto_{s}_{t}"`. -/
def synthKey (d : Demand) : String := "auto_" ++ d.s ++ "_" ++ d.t

/-- The synthetic default edge added to the graph for an unroutable demand. -/
def synthEdge (d : Demand) : Edge := ⟨d.s, d.t, synthKey d, synthData⟩

/-- The synthetic single-edge route for an unroutable demand.  Its data dict is
the local `default_attr` dict, not the dict stored into the graph by
`add_edge`, hence `aliased := false`. -/
def synthRouteEdge (d : Demand) : RouteEdge :=
  ⟨d.s, d.t, synthKey d, synthData, false⟩

/-- The body of the per-demand loop of `getAllPossibleRoutes`: returns the
(possibly extended) graph and this demand's route list, truncated to the first
`MAX_ROUTES_PER_DEMAND = 8` routes in discovery order. -/
def routesForDemand (maxHops : ℕ) (g : Graph) (d : Demand) : Graph × List Route :=
  let ps := simplePaths g d.s d.t maxHops
  if ps.isEmpty then
    (g ++ [synthEdge d], [[synthRouteEdge d]])
  else
    (g, (ps.flatMap (routesOfPath g)).take 8)

/-- Embeds `getAllPossibleRoutes(graph, demands, max_hops)`: iterates the demands,
threading the (mutable) graph, and collects `R_ij`. -/
def getAllPossibleRoutes (g : Graph) (demands : List Demand) (maxHops : ℕ := 3) :
    Graph × List (List Route) :=
  demands.foldl
    (fun acc d =>
      let step := routesForDemand maxHops acc.1 d
      (step.1, acc.2 ++ [step.2]))
    (g, [])

/-! ## Variable model builder (`addVarsForSolver`, `src/src/solverUtils.py` 93-138) -/

/-- Per-edge step of `addVarsForSolver`: attach the flow unknown
`Real(f"f_{u}-{v}-{color}")` to `data['f_e']`, and, when `data.get('price')`
is `None`, attach the price unknown `Real(f"p_{u}-{v}-{color}")`.  The names
use the stored endpoints and the mode tag only — not the parallel-edge key. -/
def attachEdge (e : Edge) : Edge :=
  { e with data :=
    { e.data with
      f_e := .sym (.fe e.u e.v e.data.color)
      price := match e.data.price with
        | .missing => .sym (.price e.u e.v e.data.color)
        | p => p } }

/-- The route-flow variables `Real(f"flow_{i}_{j}")`, one per (demand, route)
pair of `R_ij`. -/
def mkFRVars (R : List (List Route)) : List (List FRVal) :=
  (enumFrom 0 R).map fun ir =>
    (enumFrom 0 ir.2).map fun jr => .fvar (.flow ir.1 jr.1)

/-- Propagate the graph mutation performed by `addVarsForSolver` into a route
edge: in Python the tuple's `data_dict` is the graph's own dict for aliased
route edges, so it sees the attached variables; the synthetic default route's
detached dict does not. -/
def syncRouteEdge (g : Graph) (re : RouteEdge) : RouteEdge :=
  if re.aliased then
    match g.find? (fun e => e.key = re.key ∧
        ((e.u = re.u ∧ e.v = re.v) ∨ (e.u = re.v ∧ e.v = re.u))) with
    | some e => { re with data := e.data }
    | none => re
  else re

/-- Embeds `addVarsForSolver(graph, R_ij)`: attaches the flow/price unknowns to every
edge and allocates the route-flow unknowns.  The returned route list is the
post-mutation view of `R_ij` (Python's dict aliasing made explicit). -/
def addVarsForSolver (g : Graph) (R : List (List Route)) :
    Graph × List (List Route) × List (List FRVal) :=
  let g' := g.map attachEdge
  (g', R.map fun rs => rs.map fun r => r.map (syncRouteEdge g'), mkFRVars R)

/-! ## Constraint builder (`addConstraints`, `src/src/solverUtils.py` 140-211) -/

/-- Reading a dynamic attribute as a Z3 term: `data['f_e']` / `data['price']`.
An absent slot raises `KeyError`; a plain number is coerced to a constant by
the Z3 arithmetic it is placed into. -/
def fieldGet : Field → Except PyErr Expr
  | .missing => .error .keyError
  | .num q => .ok (.const q)
  | .sym v => .ok (.var v)
  | .exprVal q => .ok (.const q)

/-- Total companion of `fieldGet` (value under success). -/
def exprOfField : Field → Expr
  | .missing => .const 0
  | .num q => .const q
  | .sym v => .var v
  | .exprVal q => .const q

/-- The cost term contributed by one route edge: `k * f_e + price`, read from
the route's own `data_dict` (`compute_route_cost`, lines 9-18). -/
def routeEdgeCostTerm (re : RouteEdge) : Expr :=
  .add (.mul (.const re.data.k) (exprOfField re.data.f_e)) (exprOfField re.data.price)

/-- Fallible form of `routeEdgeCostTerm`, reading `f_e`/`price` from the
route's stored `data_dict` (raising `KeyError` when `f_e` was never attached
to that dict, as for the synthetic default-edge route). -/
def routeEdgeTerm (re : RouteEdge) : Except PyErr Expr :=
  match fieldGet re.data.f_e with
  | .error e => .error e
  | .ok feE =>
    match fieldGet re.data.price with
    | .error e => .error e
    | .ok prE => .ok (.add (.mul (.const re.data.k) feE) prE)

/-- Embeds `compute_route_cost(route_edges)` (`src/src/solverUtils.py` 9-18): `Sum`
of `k * f_e + price` over the route's edges. -/
def compute_route_cost (r : Route) : Except PyErr Expr :=
  match exMapM routeEdgeTerm r with
  | .error e => .error e
  | .ok terms => .ok (mkSum terms)

/-- Whether route `r` is matched to edge `e` by the flow-conservation loop:
`any(edge_u == u and edge_v == v and edge_key == key ...)` — ordered endpoint
tuple plus parallel-edge key. -/
def routeMatchesEdge (r : Route) (e : Edge) : Bool :=
  r.any fun re => decide (re.u = e.u ∧ re.v = e.v ∧ re.key = e.key)

/-- The route-flow terms `f_R_vars[i][j]` collected for edge `e` by the
flow-conservation loop, in demand-major order. -/
def routeFlowsOn (R : List (List Route)) (frv : List (List FRVal)) (e : Edge) :
    List Expr :=
  (enumFrom 0 R).flatMap fun ir =>
    (enumFrom 0 ir.2).filterMap fun jr =>
      if routeMatchesEdge jr.2 e then
        some (frValExpr (((frv.getD ir.1 []).getD jr.1 (.fnum 0))))
      else none

/-- Constraints asserted for one edge by the first loop of `addConstraints`:
flow conservation (`f_e == Sum(f_R)` over matched routes, `f_e == 0` when no
route is matched) followed by capacity (`f_e <= capacity`, default 500). -/
def edgeCnstrs (R : List (List Route)) (frv : List (List FRVal)) (e : Edge) :
    Except PyErr (List Cnstr) :=
  match fieldGet e.data.f_e with
  | .error err => .error err
  | .ok feE =>
    let flows := routeFlowsOn R frv e
    let c1 := if flows.isEmpty then Cnstr.eq feE (.const 0)
              else Cnstr.eq feE (mkSum flows)
    .ok [c1, .le feE (.const (e.data.capacity.getD 500))]

/-- The two Wardrop constraints asserted for route `j` of demand `i`:
C5 `cost_R >= T_i` and
C4 `Implies(f_R >= TOLERANCE_FLOW, And(cost_R <= T_i + TOLERANCE_COST,
cost_R >= T_i - TOLERANCE_COST))` with `TOLERANCE_FLOW = 1`,
`TOLERANCE_COST = 5` (`src/src/solverUtils.py` 191-205). -/
def wardropPair (frv : List (List FRVal)) (i : ℕ) (jr : ℕ × Route) :
    Except PyErr (List Cnstr) :=
  match compute_route_cost jr.2 with
  | .error e => .error e
  | .ok c =>
    let frE := frValExpr ((frv.getD i []).getD jr.1 (.fnum 0))
    .ok [Cnstr.ge c (.var (.tvar i)),
         Cnstr.impl (.ge frE (.const 1))
           (.andC (.le c (.add (.var (.tvar i)) (.const 5)))
                  (.ge c (.sub (.var (.tvar i)) (.const 5))))]

/-- Constraints asserted for demand `i` by the second loop of
`addConstraints`: demand satisfaction `Sum(f_R_vars[i]) == d_i`, then per
route the two Wardrop conditions of `wardropPair`. -/
def demandCnstrs (R : List (List Route)) (frv : List (List FRVal))
    (i : ℕ) (d : Demand) : Except PyErr (List Cnstr) :=
  match exMapM (wardropPair frv i) (enumFrom 0 (R.getD i [])) with
  | .error e => .error e
  | .ok pairs =>
    .ok (Cnstr.eq (mkSum ((frv.getD i []).map frValExpr)) (.const d.d) :: pairs.flatten)

/-- The trailing non-negativity loop: `f_R >= 0` for every entry of
`f_R_vars`. -/
def nonnegCnstrs (frv : List (List FRVal)) : List Cnstr :=
  frv.flatten.map fun fr => .ge (frValExpr fr) (.const 0)

/-- Embeds `addConstraints(graph, R_ij, f_R_vars, demands, solver)`: the full ordered
list of constraints asserted on the solver. -/
def addConstraints (g : Graph) (R : List (List Route)) (frv : List (List FRVal))
    (demands : List Demand) : Except PyErr (List Cnstr) :=
  match exMapM (edgeCnstrs R frv) g with
  | .error e => .error e
  | .ok eParts =>
    match exMapM (fun idd => demandCnstrs R frv idd.1 idd.2) (enumFrom 0 demands) with
    | .error e => .error e
    | .ok dParts => .ok (eParts.flatten ++ dParts.flatten ++ nonnegCnstrs frv)

/-! ## Strategy B (`setPricesHighToLow`)

Two copies exist in the repository.  `src/src/solverUtils.py` 271-320 is the
copy the engine runs (`src/src/dynamicPricing.py` imports `Strategy` from
`solverUtils`); `src/src/solveStrategy.py` 29-97 is an unimported variant.
Both iterate a candidate uniform price `p` from `P_MAX = 120` down to
`P_MIN = 5` in steps of `P_DELTA = 5`, checking satisfiability at each trial;
the oracle is abstracted as `check : price → satisfiable?`, and a Z3 model is
abstracted as the trial price it came from (`Option ℕ`, `none` = the Python
`model = None`).

The `while` loops are embedded with explicit fuel; a run from `p = 120`
performs at most 24 checks plus one final guard evaluation, so `fuel = 32`
strictly exceeds any possible iteration count and the fuel-exhaustion branch
is unreachable. -/

/-- Loop of the `solverUtils.py` copy: on `sat` record the model and descend;
on the first non-`sat` verdict `break` with `isSat` no longer `sat`; when the
price falls below `P_MIN` the guard exits with `isSat == sat` still true.
The function then returns `(model, isSat == sat)`.  No price is ever written
back to `graph` (only per-trial copies are mutated). -/
def suPriceLoop (check : ℕ → Bool) : ℕ → ℕ → Option ℕ → Option ℕ × Bool
  | 0, _, model => (model, true)
  | fuel + 1, p, model =>
    if 5 ≤ p then
      if check p then suPriceLoop check fuel (p - 5) (some p)
      else (model, false)
    else (model, true)

/-- Embeds `setPricesHighToLow` as run by the engine (`src/src/solverUtils.py`):
result is `(model, success)`. -/
def setPricesHighToLow (check : ℕ → Bool) : Option ℕ × Bool :=
  suPriceLoop check 32 120 none

/-- Loop of the `solveStrategy.py` copy: additionally tracks
`last_sat_price`, the price whose check produced the retained model. -/
def ssPriceLoop (check : ℕ → Bool) :
    ℕ → ℕ → Option ℕ → Option ℕ → Option ℕ × Option ℕ
  | 0, _, model, lastSat => (model, lastSat)
  | fuel + 1, p, model, lastSat =>
    if 5 ≤ p then
      if check p then ssPriceLoop check fuel (p - 5) (some p) (some p)
      else (model, lastSat)
    else (model, lastSat)

/-- Embeds `setPricesHighToLow` of the unimported `src/src/solveStrategy.py`
copy (lines 29-97).  Its precompute loop calls `compute_route_price(graph,
route_edges)` (line 47), a name defined nowhere in the repository, so the
call raises `NameError` at the first route of the first demand that has one;
the price loop is reached only when no demand has any route.  In that case
the loop tracks `last_sat_price` and, if a model was ever found, that price
is committed onto every still-symbolic edge price of the authoritative graph
and the call succeeds.  Result is `(model, committed price, success)`. -/
def setPricesHighToLow_solveStrategy (R : List (List Route)) (check : ℕ → Bool) :
    Except PyErr (Option ℕ × Option ℕ × Bool) :=
  if R.any fun routes => !routes.isEmpty then .error .nameError
  else
    match ssPriceLoop check 32 120 none none with
    | (some m, some ls) => .ok (some m, some ls, true)
    | (m, ls) => .ok (m, ls, false)

/-! ## Solution extraction (`getUpdatedGraphAndSolution`,
`src/src/solverUtils.py` 332-361) -/

/-- Embeds `.as_long()` on a Z3 real numeral (`RatNumRef.as_long`): asserts the value
is an integer fraction, raising `Z3Exception` otherwise. -/
def ratAsLong (q : ℚ) : Except PyErr ℤ :=
  if q.den = 1 then .ok q.num else .error .z3Error

/-- Embeds `model.evaluate` on an `f_R_vars` entry: a Z3 variable evaluates to its
model value; a plain Python number (left by the Strategy-B shortcut) has no
`.ast` and raises. -/
def modelEvalFR (m : VarName → ℚ) : FRVal → Except PyErr ℚ
  | .fvar v => .ok (m v)
  | .fnum _ => .error .attributeError

/-- Embeds `model.evaluate` on a field holding a Z3 expression (numerals evaluate to
themselves). -/
def evalField (m : VarName → ℚ) : Field → ℚ
  | .sym v => m v
  | .exprVal q => q
  | _ => 0

/-- Embeds `model.evaluate(f_R).as_long()` on one route-flow entry. -/
def evalAsLong (m : VarName → ℚ) (fr : FRVal) : Except PyErr ℤ :=
  match modelEvalFR m fr with
  | .error e => .error e
  | .ok q => ratAsLong q

/-- The per-route-flow values of the solution dict:
`[[model.evaluate(f_R).as_long() for f_R in f_R_list] for f_R_list in f_R_vars]`. -/
def extractFRVals (m : VarName → ℚ) (frv : List (List FRVal)) :
    Except PyErr (List (List ℤ)) :=
  exMapM (fun l => exMapM (evalAsLong m) l) frv

/-- The solution dict built by `getUpdatedGraphAndSolution`: only
`"f_R_vals"` is populated; the `objective_val` entry is commented out in
`src/src/solverUtils.py` (line 340) and therefore absent. -/
structure Solution where
  fRVals : List (List ℤ)
  objectiveVal : Option ℚ
deriving DecidableEq, Repr

/-- Post-solve update of one edge: a field holding a Z3 expression is replaced
by its model evaluation (a Z3 numeral, still an expression); any other field
— plain numbers included — is overwritten with `None`. -/
def updateEdge (m : VarName → ℚ) (e : Edge) : Edge :=
  { e with data :=
    { e.data with
      f_e := if e.data.f_e.isExprF then .exprVal (evalField m e.data.f_e)
             else .missing
      price := if e.data.price.isExprF then .exprVal (evalField m e.data.price)
               else .missing } }

/-- Embeds `getUpdatedGraphAndSolution(graph, model, f_R_vars)`: converts every
route-flow model value with `.as_long()` (raising on non-integral values),
then rewrites the edge fields. -/
def getUpdatedGraphAndSolution (g : Graph) (m : VarName → ℚ)
    (frv : List (List FRVal)) : Except PyErr (Graph × Solution) :=
  match extractFRVals m frv with
  | .error e => .error e
  | .ok fRVals => .ok (g.map (updateEdge m), ⟨fRVals, none⟩)

/-! ## Orchestration (`solveUnknownPrices`, `src/src/dynamicPricing.py` 10-45) -/

/-- What a call of `solveUnknownPrices` does, as seen by its caller. -/
inductive SolveResult where
  | raised (e : PyErr)
  | retNone
  | retPair (g : Graph) (sol : Option Solution)
deriving DecidableEq, Repr

/-- Embeds `solveUnknownPrices(graph, demands, R_ij)` with the two strategy calls
abstracted by their verdicts (`aOk`, `bOk`) and the Strategy-B-path extraction
by its outcome (`extractErr`); `g` stands for the graph after
`addVarsForSolver`.  Faithful control flow of lines 24-45:
* Strategy A success: `getUpdatedGraphAndSolution(graph, model)` is called
  with only two arguments while the function requires three — `TypeError`.
* Strategy A failure: Strategy B is invoked (this is the only path invoking
  it).  On its success, extraction runs but the branch has no `return`
  statement, so the function falls off the end and returns `None`.
* Both strategies fail: `return graph, None`.
The first component records whether Strategy B was invoked. -/
def solveUnknownPrices (aOk bOk : Bool) (extractErr : Option PyErr)
    (g : Graph) : Bool × SolveResult :=
  if aOk then (false, .raised .typeError)
  else if bOk then
    (true, match extractErr with
      | some e => .raised e
      | none => .retNone)
  else (true, .retPair g none)

/-! ## Reporting sink (`runExperiments`, `src/src/experiment.py` 7-54) -/

/-- Arithmetic on a non-expression field value inside the revenue loop: a
plain number computes; `None` raises `TypeError` (`k*None`, `... + None`). -/
def numOrNone : Field → Except PyErr ℚ
  | .num q => .ok q
  | _ => .error .typeError

/-- The revenue/flow accumulation loop of `runExperiments` (lines 28-39): an
edge is processed only when `not (is_expr(price) or is_expr(f_e))`; Z3
numerals written back by extraction are expressions and are therefore
skipped, while `None` fields pass the guard and the arithmetic raises.
Returns `(total_revenue, total_flow)` where each processed edge contributes
`k * f_e + price` to revenue and `f_e` to flow. -/
def experimentTotalsAux (acc : ℚ × ℚ) : Graph → Except PyErr (ℚ × ℚ)
  | [] => .ok acc
  | e :: rest =>
    if e.data.price.isExprF || e.data.f_e.isExprF then experimentTotalsAux acc rest
    else
      match numOrNone e.data.f_e with
      | .error err => .error err
      | .ok f =>
        match numOrNone e.data.price with
        | .error err => .error err
        | .ok p => experimentTotalsAux (acc.1 + (e.data.k * f + p), acc.2 + f) rest

/-- The totals after the accumulation loop, starting from `(0.0, 0.0)`. -/
def experimentTotals (g : Graph) : Except PyErr (ℚ × ℚ) :=
  experimentTotalsAux (0, 0) g

/-- Embeds `runExperiments(graph, solution, resultsFile)` (file I/O elided): computes
the totals, reads `solution['objective_val']` (`KeyError` when absent —
`src/src`'s extraction never stores it), converts it with `.as_long()`, and
divides by `total_flow` (`ZeroDivisionError` when zero).  Returns the
`(revenue, avg_cost)` pair appended to the metrics store. -/
def runExperiments (g : Graph) (sol : Solution) : Except PyErr (ℚ × ℚ) :=
  match experimentTotals g with
  | .error e => .error e
  | .ok totals =>
    match sol.objectiveVal with
    | none => .error .keyError
    | some o =>
      match ratAsLong o with
      | .error e => .error e
      | .ok obj =>
        if totals.2 = 0 then .error .zeroDivision
        else .ok (totals.1, (obj : ℚ) / totals.2)

/-! ## Concrete instances used by witnesses and counterexamples -/

/-- A one-edge network: a single "bus" edge between `A` and `B` with unit
congestion coefficient, capacity 100 and an unknown (absent) price. -/
def gW : Graph := [⟨"A", "B", "0", ⟨"bus", 1, some 100, .missing, .missing⟩⟩]

/-- One demand of 10 from `A` to `B`. -/
def dsW : List Demand := [⟨"A", "B", 10⟩]

/-- The route enumeration on the one-edge network. -/
def enumW : Graph × List (List Route) := getAllPossibleRoutes gW dsW 3

/-- The variable-attached pipeline state on the one-edge network. -/
def pipeW : Graph × List (List Route) × List (List FRVal) :=
  addVarsForSolver enumW.1 enumW.2

/-- The constraint set built for the one-edge network (under `Except.ok`). -/
def csW : List Cnstr :=
  (addConstraints pipeW.1 pipeW.2.1 pipeW.2.2 dsW).toOption.getD []

/-- A model of `csW` that assigns the unknown price the value 1000000:
flows carry the whole demand over the single route, and the per-demand
minimum cost matches the single route's cost. -/
def vW : VarName → ℚ
  | .fe "A" "B" "bus" => 10
  | .price "A" "B" "bus" => 1000000
  | .flow 0 0 => 10
  | .tvar 0 => 1000010
  | _ => 0

/-- A post-`addVarsForSolver` edge whose price was a fixed numeric constant
(100) in the input data, with the flow unknown attached. -/
def gFix : Graph := [⟨"A", "B", "0", ⟨"bus", 1, some 100, .num 100, .sym (.fe "A" "B" "bus")⟩⟩]

/-- A model assigning flow 7 to the `gFix` edge. -/
def mFix : VarName → ℚ
  | .fe "A" "B" "bus" => 7
  | _ => 0

/-- A post-extraction graph: the single edge's flow and price are fully
resolved Z3 numerals (10 and 50). -/
def gExp : Graph := [⟨"A", "B", "0", ⟨"bus", 1, some 100, .exprVal 50, .exprVal 10⟩⟩]

/-- The solution dict produced by `src/src`'s extraction for `gExp` (no
`objective_val` entry). -/
def solExp : Solution := ⟨[[10]], none⟩

/-- A graph whose single edge has a plain numeric flow and a `None` price. -/
def gNull : Graph := [⟨"A", "B", "0", ⟨"bus", 1, some 100, .missing, .num 10⟩⟩]

/-- First of two parallel "bus" edges between `A` and `B` (key 0). -/
def eA : Edge := ⟨"A", "B", "0", ⟨"bus", 1, some 100, .missing, .missing⟩⟩

/-- Second, distinct parallel "bus" edge between `A` and `B` (key 1, different
coefficient and capacity). -/
def eB : Edge := ⟨"A", "B", "1", ⟨"bus", 2, some 50, .missing, .missing⟩⟩

/-- The constraint set submitted to the oracle by Strategy A
(`optimizeObjective`, `src/src/solverUtils.py` 256-269): the function pushes a
scope, asserts exactly the `addConstraints` set, registers the minimisation
objective (which adds no constraint), and checks.  No other assertion is
made. -/
def optimizeObjective_constraints (g : Graph) (R : List (List Route))
    (frv : List (List FRVal)) (demands : List Demand) : Except PyErr (List Cnstr) :=
  addConstraints g R frv demands

/-- A bare price-bound constraint: a comparison of a price unknown against a
constant (`solver.add(price_var >= 5)` / `solver.add(price_var <= 120)`), the
form asserted by the superseded root-level `src/dynamicPricing.py` variant
(lines 47-48) and nowhere in the current engine. -/
def isPriceBound : Cnstr → Bool
  | .ge (.var (.price _ _ _)) (.const _) => true
  | .le (.var (.price _ _ _)) (.const _) => true
  | _ => false

/-! ## Helper lemmas -/

theorem exMapM_ok_cons {f : α → Except PyErr β} {x : α} {xs : List α} {ys : List β}
    (h : exMapM f (x :: xs) = .ok ys) :
    ∃ y ys', f x = .ok y ∧ exMapM f xs = .ok ys' ∧ ys = y :: ys' := by
  simp only [exMapM] at h
  split at h
  · exact absurd h (by simp)
  · rename_i y hy
    split at h
    · exact absurd h (by simp)
    · rename_i ys' hys'
      simp only [Except.ok.injEq] at h
      exact ⟨y, ys', hy, hys', h.symm⟩

theorem exMapM_ok_length {f : α → Except PyErr β} :
    ∀ {xs : List α} {ys : List β}, exMapM f xs = .ok ys → ys.length = xs.length := by
  intro xs
  induction xs with
  | nil => intro ys h; simp only [exMapM, Except.ok.injEq] at h; simp [← h]
  | cons x xs ih =>
    intro ys h
    obtain ⟨y, ys', _, hxs, rfl⟩ := exMapM_ok_cons h
    simp [ih hxs]

theorem exMapM_mem_ok {f : α → Except PyErr β} :
    ∀ {xs : List α} {ys : List β}, exMapM f xs = .ok ys →
      ∀ x ∈ xs, ∃ y ∈ ys, f x = .ok y := by
  intro xs
  induction xs with
  | nil => intro ys _ x hx; simp at hx
  | cons a xs ih =>
    intro ys h x hx
    obtain ⟨y, ys', hfa, hxs, rfl⟩ := exMapM_ok_cons h
    rcases List.mem_cons.mp hx with rfl | hx'
    · exact ⟨y, List.mem_cons_self _ _, hfa⟩
    · obtain ⟨y', hy', hfy'⟩ := ih hxs x hx'
      exact ⟨y', List.mem_cons_of_mem _ hy', hfy'⟩

theorem exMapM_ok_mem_rev {f : α → Except PyErr β} :
    ∀ {xs : List α} {ys : List β}, exMapM f xs = .ok ys →
      ∀ y ∈ ys, ∃ x ∈ xs, f x = .ok y := by
  intro xs
  induction xs with
  | nil =>
    intro ys h y hy
    simp only [exMapM, Except.ok.injEq] at h
    rw [← h] at hy
    simp at hy
  | cons a xs ih =>
    intro ys h y hy
    obtain ⟨y', ys', hfa, hxs, rfl⟩ := exMapM_ok_cons h
    rcases List.mem_cons.mp hy with rfl | hy'
    · exact ⟨a, List.mem_cons_self _ _, hfa⟩
    · obtain ⟨x, hx, hfx⟩ := ih hxs y hy'
      exact ⟨x, List.mem_cons_of_mem _ hx, hfx⟩

theorem exMapM_ok_get {f : α → Except PyErr β} :
    ∀ {xs : List α} {ys : List β}, exMapM f xs = .ok ys →
      ∀ i (hi : i < xs.length) (hy : i < ys.length), f xs[i] = .ok ys[i] := by
  intro xs
  induction xs with
  | nil => intro ys _ i hi; simp at hi
  | cons a xs ih =>
    intro ys h i hi hy
    obtain ⟨y, ys', hfa, hxs, rfl⟩ := exMapM_ok_cons h
    cases i with
    | zero => simpa using hfa
    | succ n =>
      simp only [List.getElem_cons_succ]
      exact ih hxs n (by simpa using hi) (by simpa using hy)

theorem exMapM_isOk_iff {f : α → Except PyErr β} :
    ∀ {xs : List α}, (∃ ys, exMapM f xs = .ok ys) ↔ ∀ x ∈ xs, ∃ y, f x = .ok y := by
  intro xs
  induction xs with
  | nil => simp [exMapM]
  | cons a xs ih =>
    constructor
    · rintro ⟨ys, h⟩ x hx
      obtain ⟨y, ys', hfa, hxs, rfl⟩ := exMapM_ok_cons h
      rcases List.mem_cons.mp hx with rfl | hx'
      · exact ⟨y, hfa⟩
      · exact ih.mp ⟨ys', hxs⟩ x hx'
    · intro hall
      obtain ⟨y, hy⟩ := hall a (List.mem_cons_self _ _)
      obtain ⟨ys', hys'⟩ := ih.mpr fun x hx => hall x (List.mem_cons_of_mem _ hx)
      exact ⟨y :: ys', by simp [exMapM, hy, hys']⟩

theorem enumFrom_length : ∀ (n : ℕ) (xs : List α), (enumFrom n xs).length = xs.length := by
  intro n xs
  induction xs generalizing n with
  | nil => simp [enumFrom]
  | cons x xs ih => simp [enumFrom, ih]

theorem enumFrom_getElem :
    ∀ (n : ℕ) (xs : List α) (i : ℕ) (hi : i < xs.length)
      (he : i < (enumFrom n xs).length), (enumFrom n xs)[i] = (n + i, xs[i]) := by
  intro n xs
  induction xs generalizing n with
  | nil => intro i hi; simp at hi
  | cons x xs ih =>
    intro i hi he
    cases i with
    | zero => simp [enumFrom]
    | succ m =>
      have hm : m < xs.length := by simpa using hi
      have he' : m < (enumFrom (n + 1) xs).length := by rw [enumFrom_length]; exact hm
      simp only [enumFrom, List.getElem_cons_succ]
      rw [ih (n + 1) m hm he']
      have harith : n + 1 + m = n + (m + 1) := by omega
      rw [harith]

theorem enumFrom_mem :
    ∀ {n : ℕ} {xs : List α} {p : ℕ × α}, p ∈ enumFrom n xs → p.2 ∈ xs := by
  intro n xs
  induction xs generalizing n with
  | nil => intro p hp; simp [enumFrom] at hp
  | cons x xs ih =>
    intro p hp
    simp only [enumFrom, List.mem_cons] at hp
    rcases hp with rfl | hp
    · simp
    · exact List.mem_cons_of_mem _ (ih hp)

theorem evalE_foldl_add (m : VarName → ℚ) :
    ∀ (ts : List Expr) (t : Expr),
      evalE m (ts.foldl .add t) = evalE m t + (ts.map (evalE m)).sum := by
  intro ts
  induction ts with
  | nil => intro t; simp
  | cons s ts ih =>
    intro t
    simp only [List.foldl_cons, List.map_cons, List.sum_cons]
    rw [ih]
    simp [evalE]
    ring

theorem evalE_mkSum (m : VarName → ℚ) (l : List Expr) :
    evalE m (mkSum l) = (l.map (evalE m)).sum := by
  cases l with
  | nil => simp [mkSum, evalE]
  | cons t ts => simp [mkSum, evalE_foldl_add]

theorem addConstraints_ok_parts {g : Graph} {R : List (List Route)}
    {frv : List (List FRVal)} {ds : List Demand} {cs : List Cnstr}
    (h : addConstraints g R frv ds = .ok cs) :
    ∃ eParts dParts,
      exMapM (edgeCnstrs R frv) g = .ok eParts ∧
      exMapM (fun idd => demandCnstrs R frv idd.1 idd.2) (enumFrom 0 ds) = .ok dParts ∧
      cs = eParts.flatten ++ dParts.flatten ++ nonnegCnstrs frv := by
  simp only [addConstraints] at h
  split at h
  · exact absurd h (by simp)
  · rename_i eParts he
    split at h
    · exact absurd h (by simp)
    · rename_i dParts hd
      simp only [Except.ok.injEq] at h
      exact ⟨eParts, dParts, he, hd, h.symm⟩

theorem demandCnstrs_ok {R : List (List Route)} {frv : List (List FRVal)}
    {i : ℕ} {d : Demand} {dcs : List Cnstr}
    (h : demandCnstrs R frv i d = .ok dcs) :
    ∃ pairs,
      exMapM (wardropPair frv i) (enumFrom 0 (R.getD i [])) = .ok pairs ∧
      dcs = Cnstr.eq (mkSum ((frv.getD i []).map frValExpr)) (.const d.d) :: pairs.flatten := by
  simp only [demandCnstrs] at h
  split at h
  · exact absurd h (by simp)
  · rename_i pairs hp
    simp only [Except.ok.injEq] at h
    exact ⟨pairs, hp, h.symm⟩

theorem wardropPair_ok {frv : List (List FRVal)} {i : ℕ} {jr : ℕ × Route}
    {wcs : List Cnstr} (h : wardropPair frv i jr = .ok wcs) :
    ∃ c, compute_route_cost jr.2 = .ok c ∧
      wcs = [Cnstr.ge c (.var (.tvar i)),
             Cnstr.impl (.ge (frValExpr ((frv.getD i []).getD jr.1 (.fnum 0))) (.const 1))
               (.andC (.le c (.add (.var (.tvar i)) (.const 5)))
                      (.ge c (.sub (.var (.tvar i)) (.const 5))))] := by
  simp only [wardropPair] at h
  split at h
  · exact absurd h (by simp)
  · rename_i c hc
    simp only [Except.ok.injEq] at h
    exact ⟨c, hc, h.symm⟩

theorem edgeCnstrs_ok {R : List (List Route)} {frv : List (List FRVal)}
    {e : Edge} {ecs : List Cnstr} (h : edgeCnstrs R frv e = .ok ecs) :
    ∃ feE, fieldGet e.data.f_e = .ok feE ∧
      ecs = [if (routeFlowsOn R frv e).isEmpty then Cnstr.eq feE (.const 0)
             else Cnstr.eq feE (mkSum (routeFlowsOn R frv e)),
             .le feE (.const (e.data.capacity.getD 500))] := by
  simp only [edgeCnstrs] at h
  split at h
  · exact absurd h (by simp)
  · rename_i feE hf
    simp only [Except.ok.injEq] at h
    exact ⟨feE, hf, h.symm⟩

theorem compute_route_cost_ok {r : Route} {c : Expr}
    (h : compute_route_cost r = .ok c) :
    ∃ terms, exMapM routeEdgeTerm r = .ok terms ∧ c = mkSum terms := by
  simp only [compute_route_cost] at h
  split at h
  · exact absurd h (by simp)
  · rename_i terms ht
    simp only [Except.ok.injEq] at h
    exact ⟨terms, ht, h.symm⟩

theorem routeEdgeTerm_ok {re : RouteEdge} {t : Expr}
    (h : routeEdgeTerm re = .ok t) : t = routeEdgeCostTerm re := by
  simp only [routeEdgeTerm] at h
  split at h
  · exact absurd h (by simp)
  · rename_i feE hf
    split at h
    · exact absurd h (by simp)
    · rename_i prE hp
      simp only [Except.ok.injEq] at h
      have hfe : feE = exprOfField re.data.f_e := by
        cases hfield : re.data.f_e <;> rw [hfield] at hf <;>
          simp [fieldGet, exprOfField] at hf ⊢ <;> simp [hf]
      have hpr : prE = exprOfField re.data.price := by
        cases hfield : re.data.price <;> rw [hfield] at hp <;>
          simp [fieldGet, exprOfField] at hp ⊢ <;> simp [hp]
      rw [← h, hfe, hpr, routeEdgeCostTerm]

theorem compute_route_cost_ok_formula {r : Route} {c : Expr}
    (h : compute_route_cost r = .ok c) : c = mkSum (r.map routeEdgeCostTerm) := by
  obtain ⟨terms, ht, rfl⟩ := compute_route_cost_ok h
  congr 1
  have hlen := exMapM_ok_length ht
  apply List.ext_getElem
  · simp [hlen]
  · intro i hi hj
    have hmem := exMapM_ok_get ht i (by omega) hi
    rw [List.getElem_map]
    exact routeEdgeTerm_ok hmem

theorem mkFRVars_length (R : List (List Route)) : (mkFRVars R).length = R.length := by
  simp [mkFRVars, enumFrom_length]

theorem mkFRVars_getD {R : List (List Route)} {i j : ℕ}
    (hi : i < R.length) (hj : j < (R.getD i []).length) :
    ((mkFRVars R).getD i []).getD j (.fnum 0) = .fvar (.flow i j) := by
  have hi' : i < (mkFRVars R).length := by rw [mkFRVars_length]; exact hi
  have hie : i < (enumFrom 0 R).length := by rw [enumFrom_length]; exact hi
  rw [List.getD_eq_getElem _ _ hi']
  have hR : (R.getD i []) = R[i] := List.getD_eq_getElem _ _ hi
  rw [hR] at hj
  have hmk : (mkFRVars R)[i] = (enumFrom 0 R[i]).map fun jr => FRVal.fvar (.flow i jr.1) := by
    simp only [mkFRVars, List.getElem_map]
    rw [enumFrom_getElem 0 R i hi hie]
    simp
  rw [hmk]
  have hj' : j < ((enumFrom 0 R[i]).map fun jr => FRVal.fvar (.flow i jr.1)).length := by
    simp [enumFrom_length]; exact hj
  rw [List.getD_eq_getElem _ _ hj']
  simp only [List.getElem_map]
  rw [enumFrom_getElem 0 R[i] j hj (by rw [enumFrom_length]; exact hj)]
  simp

/-! ## Claim theorems -/

/-- Claim C1. For every demand `i` and every route `j` of that demand, the
constraint set built by `addConstraints` contains `cost_R >= T_i` (with `T_i`
the per-demand minimum-cost unknown) and the implication
`f_R >= 1 ⟹ T_i - 5 <= cost_R <= T_i + 5`, where
`cost_R = Sum over edges e in the route of k_e * f_e + price_e`,
`FLOW_TOLERANCE = 1` and `COST_TOLERANCE = 5`. -/
theorem claim_C1 (g : Graph) (R : List (List Route)) (ds : List Demand)
    (cs : List Cnstr) (i j : ℕ)
    (hR : R.length = ds.length)
    (hi : i < ds.length)
    (hj : j < (R.getD i []).length)
    (hok : addConstraints g R (mkFRVars R) ds = .ok cs) :
    ∃ c, compute_route_cost ((R.getD i []).getD j []) = .ok c ∧
      c = mkSum (((R.getD i []).getD j []).map routeEdgeCostTerm) ∧
      Cnstr.ge c (.var (.tvar i)) ∈ cs ∧
      Cnstr.impl (.ge (.var (.flow i j)) (.const 1))
        (.andC (.le c (.add (.var (.tvar i)) (.const 5)))
               (.ge c (.sub (.var (.tvar i)) (.const 5)))) ∈ cs := by
  obtain ⟨eParts, dParts, _, hd, rfl⟩ := addConstraints_ok_parts hok
  have hde : i < (enumFrom 0 ds).length := by rw [enumFrom_length]; exact hi
  have hdp : i < dParts.length := by rw [exMapM_ok_length hd, enumFrom_length]; exact hi
  have hdemand := exMapM_ok_get hd i hde hdp
  rw [enumFrom_getElem 0 ds i hi hde] at hdemand
  simp only [Nat.zero_add] at hdemand
  obtain ⟨pairs, hp, hdcs⟩ := demandCnstrs_ok hdemand
  have hje' : j < (enumFrom 0 (R.getD i [])).length := by rw [enumFrom_length]; exact hj
  have hpl : j < pairs.length := by rw [exMapM_ok_length hp, enumFrom_length]; exact hj
  have hpair := exMapM_ok_get hp j hje' hpl
  rw [enumFrom_getElem 0 (R.getD i []) j hj hje'] at hpair
  simp only [Nat.zero_add] at hpair
  obtain ⟨c, hc, hwcs⟩ := wardropPair_ok hpair
  have hiR : i < R.length := by rw [hR]; exact hi
  have hfr : ((mkFRVars R).getD i []).getD j (.fnum 0) = .fvar (.flow i j) :=
    mkFRVars_getD hiR hj
  have hget : ((R.getD i []).getD j []) = (R.getD i [])[j] := List.getD_eq_getElem _ _ hj
  refine ⟨c, by rw [hget]; exact hc, compute_route_cost_ok_formula (by rw [hget]; exact hc), ?_, ?_⟩
  · have hmem : Cnstr.ge c (.var (.tvar i)) ∈ pairs[j] := by
      rw [hwcs]; exact List.mem_cons_self _ _
    have hmem2 : Cnstr.ge c (.var (.tvar i)) ∈ pairs.flatten :=
      List.mem_flatten_of_mem (List.getElem_mem hpl) hmem
    have hmem3 : Cnstr.ge c (.var (.tvar i)) ∈ dParts[i] := by
      rw [hdcs]; exact List.mem_cons_of_mem _ hmem2
    have hmem4 : Cnstr.ge c (.var (.tvar i)) ∈ dParts.flatten :=
      List.mem_flatten_of_mem (List.getElem_mem hdp) hmem3
    simp [List.mem_append, hmem4]
  · have hmem : Cnstr.impl (.ge (.var (.flow i j)) (.const 1))
        (.andC (.le c (.add (.var (.tvar i)) (.const 5)))
               (.ge c (.sub (.var (.tvar i)) (.const 5)))) ∈ pairs[j] := by
      rw [hwcs, hfr]
      simp [frValExpr]
    have hmem2 := List.mem_flatten_of_mem (List.getElem_mem hpl) hmem
    have hmem3 := List.mem_cons_of_mem
      (Cnstr.eq (mkSum (((mkFRVars R).getD i []).map frValExpr)) (.const ds[i].d)) hmem2
    rw [← hdcs] at hmem3
    have hmem4 := List.mem_flatten_of_mem (List.getElem_mem hdp) hmem3
    simp [List.mem_append, hmem4]

/-- Witness for C1 on the concrete one-edge network: all hypotheses hold and
the two Wardrop constraints are present in `csW`. -/
theorem claim_C1_witness :
    (pipeW.2.1.length = dsW.length ∧ 0 < dsW.length ∧ 0 < (pipeW.2.1.getD 0 []).length
      ∧ addConstraints pipeW.1 pipeW.2.1 (mkFRVars pipeW.2.1) dsW = .ok csW)
    ∧ (∃ c, compute_route_cost ((pipeW.2.1.getD 0 []).getD 0 []) = .ok c ∧
        c = mkSum (((pipeW.2.1.getD 0 []).getD 0 []).map routeEdgeCostTerm) ∧
        Cnstr.ge c (.var (.tvar 0)) ∈ csW ∧
        Cnstr.impl (.ge (.var (.flow 0 0)) (.const 1))
          (.andC (.le c (.add (.var (.tvar 0)) (.const 5)))
                 (.ge c (.sub (.var (.tvar 0)) (.const 5)))) ∈ csW) :=
  ⟨⟨by decide, by decide, by decide, by rfl⟩,
   claim_C1 pipeW.1 pipeW.2.1 dsW csW 0 0 (by decide) (by decide) (by decide) (by rfl)⟩

/-- Claim C4. Any model satisfying the constraint set built by `addConstraints`
satisfies the feasibility constraints as built: for every demand the sum of
its route flows equals `d_i` exactly; for every edge, `f_e <= capacity_e`
(default 500) and `f_e` equals the sum of `f_R` over exactly the routes
matched to `e` by ordered endpoints and parallel-edge key, with `f_e = 0`
when no route is matched; and every route flow is non-negative. -/
theorem claim_C4 (g : Graph) (R : List (List Route)) (frv : List (List FRVal))
    (ds : List Demand) (cs : List Cnstr) (v : VarName → ℚ)
    (hok : addConstraints g R frv ds = .ok cs)
    (hsat : cs.all (holdsB v) = true) :
    (∀ i (hi : i < ds.length), ((frv.getD i []).map (evalFR v)).sum = ds[i].d)
    ∧ (∀ e ∈ g, ∃ feE, fieldGet e.data.f_e = .ok feE ∧
        evalE v feE = ((routeFlowsOn R frv e).map (evalE v)).sum ∧
        evalE v feE ≤ e.data.capacity.getD 500 ∧
        (routeFlowsOn R frv e = [] → evalE v feE = 0))
    ∧ (∀ l ∈ frv, ∀ fr ∈ l, 0 ≤ evalFR v fr) := by
  have hall : ∀ c ∈ cs, holdsB v c = true := List.all_eq_true.mp hsat
  obtain ⟨eParts, dParts, he, hd, rfl⟩ := addConstraints_ok_parts hok
  refine ⟨?_, ?_, ?_⟩
  · intro i hi
    have hde : i < (enumFrom 0 ds).length := by rw [enumFrom_length]; exact hi
    have hdp : i < dParts.length := by rw [exMapM_ok_length hd, enumFrom_length]; exact hi
    have hdemand := exMapM_ok_get hd i hde hdp
    rw [enumFrom_getElem 0 ds i hi hde] at hdemand
    simp only [Nat.zero_add] at hdemand
    obtain ⟨pairs, _, hdcs⟩ := demandCnstrs_ok hdemand
    have hbase : Cnstr.eq (mkSum ((frv.getD i []).map frValExpr)) (.const ds[i].d) ∈ dParts[i] := by
      rw [hdcs]; exact List.mem_cons_self _ _
    have hmem := List.mem_flatten_of_mem (List.getElem_mem hdp) hbase
    have hcs : Cnstr.eq (mkSum ((frv.getD i []).map frValExpr)) (.const ds[i].d)
        ∈ eParts.flatten ++ dParts.flatten ++ nonnegCnstrs frv :=
      List.mem_append_left _ (List.mem_append_right _ hmem)
    have hh := hall _ hcs
    simp only [holdsB, decide_eq_true_eq] at hh
    rw [evalE_mkSum, List.map_map] at hh
    simpa [evalFR, Function.comp, evalE] using hh
  · intro e hmemg
    obtain ⟨ecs, hecsmem, hecs⟩ := exMapM_mem_ok he e hmemg
    obtain ⟨feE, hfe, rfl⟩ := edgeCnstrs_ok hecs
    refine ⟨feE, hfe, ?_, ?_, ?_⟩
    · by_cases hflows : (routeFlowsOn R frv e).isEmpty
      · have h0 : Cnstr.eq feE (.const 0)
            ∈ eParts.flatten ++ dParts.flatten ++ nonnegCnstrs frv := by
          have : Cnstr.eq feE (.const 0) ∈
              [if (routeFlowsOn R frv e).isEmpty then Cnstr.eq feE (.const 0)
               else Cnstr.eq feE (mkSum (routeFlowsOn R frv e)),
               .le feE (.const (e.data.capacity.getD 500))] := by
            simp [hflows]
          exact List.mem_append_left _ (List.mem_append_left _ (List.mem_flatten_of_mem hecsmem this))
        have hh := hall _ h0
        simp only [holdsB, decide_eq_true_eq] at hh
        rw [List.isEmpty_iff] at hflows
        simp [hflows, hh, evalE]
      · have h0 : Cnstr.eq feE (mkSum (routeFlowsOn R frv e))
            ∈ eParts.flatten ++ dParts.flatten ++ nonnegCnstrs frv := by
          have : Cnstr.eq feE (mkSum (routeFlowsOn R frv e)) ∈
              [if (routeFlowsOn R frv e).isEmpty then Cnstr.eq feE (.const 0)
               else Cnstr.eq feE (mkSum (routeFlowsOn R frv e)),
               .le feE (.const (e.data.capacity.getD 500))] := by
            simp [hflows]
          exact List.mem_append_left _ (List.mem_append_left _ (List.mem_flatten_of_mem hecsmem this))
        have hh := hall _ h0
        simp only [holdsB, decide_eq_true_eq] at hh
        rw [evalE_mkSum] at hh
        exact hh
    · have h1 : Cnstr.le feE (.const (e.data.capacity.getD 500))
          ∈ eParts.flatten ++ dParts.flatten ++ nonnegCnstrs frv := by
        have : Cnstr.le feE (.const (e.data.capacity.getD 500)) ∈
            [if (routeFlowsOn R frv e).isEmpty then Cnstr.eq feE (.const 0)
             else Cnstr.eq feE (mkSum (routeFlowsOn R frv e)),
             .le feE (.const (e.data.capacity.getD 500))] := by
          simp
        exact List.mem_append_left _ (List.mem_append_left _ (List.mem_flatten_of_mem hecsmem this))
      have hh := hall _ h1
      simp only [holdsB, decide_eq_true_eq] at hh
      simpa [evalE] using hh
    · intro hempty
      by_cases hflows : (routeFlowsOn R frv e).isEmpty
      · have h0 : Cnstr.eq feE (.const 0)
            ∈ eParts.flatten ++ dParts.flatten ++ nonnegCnstrs frv := by
          have : Cnstr.eq feE (.const 0) ∈
              [if (routeFlowsOn R frv e).isEmpty then Cnstr.eq feE (.const 0)
               else Cnstr.eq feE (mkSum (routeFlowsOn R frv e)),
               .le feE (.const (e.data.capacity.getD 500))] := by
            simp [hflows]
          exact List.mem_append_left _ (List.mem_append_left _ (List.mem_flatten_of_mem hecsmem this))
        have hh := hall _ h0
        simp only [holdsB, decide_eq_true_eq] at hh
        simpa [evalE] using hh
      · rw [List.isEmpty_iff] at hflows
        exact absurd hempty hflows
  · intro l hl fr hfr
    have hfl : fr ∈ frv.flatten := List.mem_flatten_of_mem hl hfr
    have hmem : Cnstr.ge (frValExpr fr) (.const 0)
        ∈ eParts.flatten ++ dParts.flatten ++ nonnegCnstrs frv := by
      have : Cnstr.ge (frValExpr fr) (.const 0) ∈ nonnegCnstrs frv := by
        simp only [nonnegCnstrs, List.mem_map]
        exact ⟨fr, hfl, rfl⟩
      exact List.mem_append_right _ this
    have hh := hall _ hmem
    simp only [holdsB, decide_eq_true_eq] at hh
    simpa [evalFR, evalE] using hh

/-- Witness for C4 on the concrete one-edge network: the model `vW` satisfies
the built constraint set and the extracted feasibility facts hold — the
demand's route flows sum to 10 and the route flow is non-negative. -/
theorem claim_C4_witness :
    (addConstraints pipeW.1 pipeW.2.1 pipeW.2.2 dsW = .ok csW
      ∧ csW.all (holdsB vW) = true)
    ∧ ((pipeW.2.2.getD 0 []).map (evalFR vW)).sum = dsW[0].d := by
  refine ⟨⟨by rfl, by with_unfolding_all rfl⟩, ?_⟩
  exact (claim_C4 pipeW.1 pipeW.2.1 pipeW.2.2 dsW csW vW (by rfl) (by with_unfolding_all rfl)).1 0 (by decide)

/-- Claim C8. The function `addVarsForSolver` attaches to every edge the flow unknown named
`f_{u}-{v}-{color}` — the parallel-edge key is not part of the name — so any
two parallel edges between the same endpoints carrying the same colour tag
receive the *same* flow unknown (Z3 identifies variables by name), and, when
both prices are unset, the same price unknown `p_{u}-{v}-{color}`. -/
theorem claim_C8 (g : Graph) (R : List (List Route)) (e1 e2 : Edge)
    (hu : e1.u = e2.u) (hv : e1.v = e2.v) (hc : e1.data.color = e2.data.color) :
    (addVarsForSolver g R).1 = g.map attachEdge
    ∧ (attachEdge e1).data.f_e = Field.sym (.fe e1.u e1.v e1.data.color)
    ∧ (attachEdge e1).data.f_e = (attachEdge e2).data.f_e
    ∧ (e1.data.price = .missing → e2.data.price = .missing →
        (attachEdge e1).data.price = Field.sym (.price e1.u e1.v e1.data.color)
        ∧ (attachEdge e1).data.price = (attachEdge e2).data.price) := by
  refine ⟨rfl, rfl, ?_, ?_⟩
  · simp [attachEdge, hu, hv, hc]
  · intro h1 h2
    refine ⟨by simp [attachEdge, h1], ?_⟩
    simp [attachEdge, h1, h2, hu, hv, hc]

/-- Witness for C8: the two concrete distinct parallel edges `eA`, `eB` (same
endpoints, same colour, different keys) end up sharing both the flow unknown
and the price unknown. -/
theorem claim_C8_witness :
    (eA.u = eB.u ∧ eA.v = eB.v ∧ eA.data.color = eB.data.color ∧ eA ≠ eB)
    ∧ (attachEdge eA).data.f_e = (attachEdge eB).data.f_e
    ∧ (attachEdge eA).data.price = (attachEdge eB).data.price :=
  ⟨⟨rfl, rfl, rfl, by decide⟩,
   (claim_C8 [] [] eA eB rfl rfl rfl).2.2.1,
   ((claim_C8 [] [] eA eB rfl rfl rfl).2.2.2 rfl rfl).2⟩

/-! ### Path-enumeration lemmas (toward C5) -/

/-- Claim C2, code bug. Against an oracle that is satisfiable at price 120
but unsatisfiable at 115, the copy of Strategy B the engine runs
(`src/src/solverUtils.py:setPricesHighToLow`, imported by
`src/src/dynamicPricing.py`) returns `(model-of-120, False)` — reporting
overall failure while discarding the satisfiable model it found, and writing
no price back to the network.  It reports success only when every price from
120 down to `P_MIN = 5` is satisfiable, in which case the returned model is
that of price 5 (second conjunct), and it fails when no price is satisfiable
(third).  The behaviour the claim describes (track the last satisfiable
price, succeed iff some tried price was satisfiable, commit that price) is
attempted only by the dead `src/src/solveStrategy.py` copy, which the engine
never imports and which raises `NameError` on any input with a demand route
— its call to `compute_route_price` resolves to nothing in the repository —
before its price loop can run (fourth conjunct, on the pipeline's own route
list). -/
theorem claim_C2_bug :
    setPricesHighToLow (fun p => decide (p = 120)) = (some 120, false)
    ∧ setPricesHighToLow (fun _ => true) = (some 5, true)
    ∧ setPricesHighToLow (fun _ => false) = (none, false)
    ∧ setPricesHighToLow_solveStrategy enumW.2 (fun p => decide (p = 120)) =
        .error .nameError := by
  refine ⟨by decide, by decide, by decide, by rfl⟩

/-- Claim C3, code bug. Control flow of
`src/src/dynamicPricing.py:solveUnknownPrices`: Strategy B is invoked exactly
when Strategy A fails (first components), but on Strategy A's success the
two-argument call `getUpdatedGraphAndSolution(graph, model)` raises
`TypeError`, and on Strategy B's success the branch has no `return` statement
and the function returns `None`; only the both-fail path returns the
documented pair `(graph, None)`. -/
theorem claim_C3_bug :
    solveUnknownPrices true false none gW = (false, .raised .typeError)
    ∧ solveUnknownPrices true true none gW = (false, .raised .typeError)
    ∧ solveUnknownPrices false true none gW = (true, .retNone)
    ∧ solveUnknownPrices false false none gW = (true, .retPair gW none) := by
  refine ⟨by decide, by decide, by decide, by decide⟩

/-- Claim C9, code bug. On a post-extraction graph whose single edge has
fully resolved flow and price (Z3 numerals 10 and 50), the revenue loop of
`runExperiments` skips the edge — `is_expr` is true of numerals — so both
accumulators stay 0 instead of `k*f_e + price_e = 60`, and the subsequent
`solution['objective_val']` lookup raises `KeyError` because the `src/src`
extraction never stores that entry.  On an edge with a plain numeric flow and
a null price, the loop does not skip: the arithmetic raises `TypeError`. -/
theorem claim_C9_bug :
    experimentTotals gExp = .ok (0, 0)
    ∧ runExperiments gExp solExp = .error .keyError
    ∧ experimentTotals gNull = .error .typeError := by
  refine ⟨by rfl, by rfl, by rfl⟩

/-- Claim C10. Solution extraction converts every route-flow model value with
`.as_long()`: it returns normally precisely when every `f_R_vars` entry is a
Z3 variable whose model value is an integer rational; in particular a model
assigning a non-integral rational to some route-flow variable makes the
extraction raise instead of producing a Solution. -/
theorem claim_C10 (g : Graph) (m : VarName → ℚ) (frv : List (List FRVal)) :
    (∃ out, getUpdatedGraphAndSolution g m frv = .ok out)
    ↔ ∀ l ∈ frv, ∀ fr ∈ l, ∃ v, fr = FRVal.fvar v ∧ (m v).den = 1 := by
  constructor
  · rintro ⟨out, hout⟩
    simp only [getUpdatedGraphAndSolution] at hout
    split at hout
    · exact absurd hout (by simp)
    · rename_i fRVals hex
      simp only [extractFRVals] at hex
      intro l hl fr hfr
      obtain ⟨ys, hys⟩ := exMapM_isOk_iff.mp ⟨fRVals, hex⟩ l hl
      obtain ⟨y, hy⟩ := exMapM_isOk_iff.mp ⟨ys, hys⟩ fr hfr
      cases fr with
      | fvar v =>
        refine ⟨v, rfl, ?_⟩
        simp only [evalAsLong, modelEvalFR, ratAsLong] at hy
        by_cases hd : (m v).den = 1
        · exact hd
        · rw [if_neg hd] at hy
          exact absurd hy (by simp)
      | fnum q =>
        simp [evalAsLong, modelEvalFR] at hy
  · intro hall
    have hex : ∃ ys, extractFRVals m frv = .ok ys := by
      apply exMapM_isOk_iff.mpr
      intro l hl
      apply exMapM_isOk_iff.mpr
      intro fr hfr
      obtain ⟨v, rfl, hden⟩ := hall l hl fr hfr
      exact ⟨(m v).num, by simp [evalAsLong, modelEvalFR, ratAsLong, hden]⟩
    obtain ⟨ys, hys⟩ := hex
    refine ⟨(g.map (updateEdge m), ⟨ys, none⟩), ?_⟩
    simp only [getUpdatedGraphAndSolution]
    rw [hys]

/-- Claim C7, counterexample. The claim says an edge whose price was a fixed
numeric constant keeps that value in the extracted graph; but on the concrete
edge with fixed price 100 the extraction overwrites the price with `None`
(the `else` branch nulls every non-expression field), while the symbolic flow
is resolved to the model value 7. -/
theorem claim_C7_counterexample :
    (gFix.map fun e => e.data.price) = [Field.num 100]
    ∧ getUpdatedGraphAndSolution gFix mFix [] =
        .ok ([⟨"A", "B", "0", ⟨"bus", 1, some 100, .missing, .exprVal 7⟩⟩], ⟨[], none⟩) := by
  exact ⟨rfl, rfl⟩

/-- Claim C7, amended. Solution extraction maps every field holding a Z3
expression (symbolic unknown, or numeral) to its model evaluation, and sets a
field to null exactly when it held a non-expression — in particular every
fixed numeric price is overwritten with null rather than kept. -/
theorem claim_C7_amended (g : Graph) (m : VarName → ℚ) (frv : List (List FRVal))
    (out : Graph × Solution)
    (hok : getUpdatedGraphAndSolution g m frv = .ok out) :
    out.1.length = g.length
    ∧ ∀ i (hi : i < g.length) (ho : i < out.1.length),
      (out.1[i].data.price = Field.missing ↔ g[i].data.price.isExprF = false)
      ∧ (g[i].data.price.isExprF = true →
          out.1[i].data.price = .exprVal (evalField m g[i].data.price))
      ∧ (out.1[i].data.f_e = Field.missing ↔ g[i].data.f_e.isExprF = false)
      ∧ (g[i].data.f_e.isExprF = true →
          out.1[i].data.f_e = .exprVal (evalField m g[i].data.f_e)) := by
  simp only [getUpdatedGraphAndSolution] at hok
  split at hok
  · exact absurd hok (by simp)
  · rename_i fRVals hex
    simp only [Except.ok.injEq] at hok
    have hg : out.1 = g.map (updateEdge m) := by rw [← hok]
    constructor
    · rw [hg]; simp
    · intro i hi ho
      have hupd : out.1[i] = updateEdge m g[i] := by
        have : i < (g.map (updateEdge m)).length := by simpa using hi
        conv_lhs => rw [(by simp [hg] : out.1[i] = (g.map (updateEdge m))[i])]
        simp
      rw [hupd]
      refine ⟨?_, ?_, ?_, ?_⟩
      · by_cases hp : g[i].data.price.isExprF
        · simp [updateEdge, hp]
        · simp [updateEdge, hp]
      · intro hp; simp [updateEdge, hp]
      · by_cases hp : g[i].data.f_e.isExprF
        · simp [updateEdge, hp]
        · simp [updateEdge, hp]
      · intro hp; simp [updateEdge, hp]

/-- Witness for the amended C7 on the fixed-price edge `gFix`: extraction
succeeds and the extracted edge list has the input's length. -/
theorem claim_C7_amended_witness :
    getUpdatedGraphAndSolution gFix mFix [] =
      .ok ([⟨"A", "B", "0", ⟨"bus", 1, some 100, .missing, .exprVal 7⟩⟩], ⟨[], none⟩)
    ∧ (([⟨"A", "B", "0", ⟨"bus", 1, some 100, .missing, .exprVal 7⟩⟩], (⟨[], none⟩ : Solution)) :
        Graph × Solution).1.length = gFix.length :=
  ⟨rfl, (claim_C7_amended gFix mFix []
    ([⟨"A", "B", "0", ⟨"bus", 1, some 100, .missing, .exprVal 7⟩⟩], ⟨[], none⟩) rfl).1⟩

/-- Claim C6, counterexample. The claim says Strategy A constrains every
unknown edge price to `[5, 120]`.  On the one-edge network the edge's price
is an unknown, yet the model `vW`, which assigns that unknown the value
1000000, satisfies every constraint Strategy A submits: the price is not
constrained to `[5, 120]`. -/
theorem claim_C6_counterexample :
    (pipeW.1.map fun e => e.data.price) = [Field.sym (.price "A" "B" "bus")]
    ∧ optimizeObjective_constraints pipeW.1 pipeW.2.1 pipeW.2.2 dsW = .ok csW
    ∧ csW.all (holdsB vW) = true
    ∧ vW (.price "A" "B" "bus") = 1000000
    ∧ ¬((5 : ℚ) ≤ 1000000 ∧ (1000000 : ℚ) ≤ 120) := by
  refine ⟨by rfl, by rfl, by with_unfolding_all rfl, by rfl, ?_⟩
  rintro ⟨-, hle⟩
  norm_num at hle

/-- Claim C6, amended. Strategy A submits exactly the shared `addConstraints`
set (plus a minimisation objective, which is not a constraint); for a graph
whose flow unknowns were attached by `addVarsForSolver` and route-flow
entries of the engine's two forms, that set contains no bare price-bound
constraint at all — the `[5, 120]` price bounds exist only in the superseded
root-level `src/dynamicPricing.py` variant. -/
theorem claim_C6_amended (g : Graph) (R : List (List Route))
    (frv : List (List FRVal)) (ds : List Demand) (cs : List Cnstr)
    (hfe : ∀ e ∈ g, e.data.f_e = Field.sym (.fe e.u e.v e.data.color))
    (hfrv : ∀ l ∈ frv, ∀ fr ∈ l,
      (∃ i j, fr = FRVal.fvar (.flow i j)) ∨ ∃ q, fr = FRVal.fnum q)
    (hok : addConstraints g R frv ds = .ok cs) :
    optimizeObjective_constraints g R frv ds = addConstraints g R frv ds
    ∧ ∀ c ∈ cs, isPriceBound c = false := by
  refine ⟨rfl, ?_⟩
  obtain ⟨eParts, dParts, he, hd, rfl⟩ := addConstraints_ok_parts hok
  intro c hc
  rcases List.mem_append.mp hc with hc' | hnn
  · rcases List.mem_append.mp hc' with hce | hcd
    · obtain ⟨ecs, hecs, hcin⟩ := List.mem_flatten.mp hce
      obtain ⟨e, heg, hee⟩ := exMapM_ok_mem_rev he ecs hecs
      obtain ⟨feE, hfeE, rfl⟩ := edgeCnstrs_ok hee
      have hfeval : feE = Expr.var (.fe e.u e.v e.data.color) := by
        rw [hfe e heg] at hfeE
        simp only [fieldGet, Except.ok.injEq] at hfeE
        exact hfeE.symm
      rcases List.mem_cons.mp hcin with rfl | hcin'
      · by_cases hflows : (routeFlowsOn R frv e).isEmpty
        · simp [hflows, isPriceBound]
        · simp [hflows, isPriceBound]
      · rcases List.mem_cons.mp hcin' with rfl | hnil
        · rw [hfeval]; simp [isPriceBound]
        · simp at hnil
    · obtain ⟨dcs, hdcs, hcin⟩ := List.mem_flatten.mp hcd
      obtain ⟨idd, _, hdd⟩ := exMapM_ok_mem_rev hd dcs hdcs
      obtain ⟨pairs, hp, rfl⟩ := demandCnstrs_ok hdd
      rcases List.mem_cons.mp hcin with rfl | hcin'
      · simp [isPriceBound]
      · obtain ⟨pcs, hpcs, hcin''⟩ := List.mem_flatten.mp hcin'
        obtain ⟨jr, _, hjr⟩ := exMapM_ok_mem_rev hp pcs hpcs
        obtain ⟨cR, _, rfl⟩ := wardropPair_ok hjr
        rcases List.mem_cons.mp hcin'' with rfl | hcin3
        · simp [isPriceBound]
        · rcases List.mem_cons.mp hcin3 with rfl | hnil
          · simp [isPriceBound]
          · simp at hnil
  · simp only [nonnegCnstrs, List.mem_map] at hnn
    obtain ⟨fr, hfrmem, rfl⟩ := hnn
    obtain ⟨l, hl, hfrl⟩ := List.mem_flatten.mp hfrmem
    rcases hfrv l hl fr hfrl with ⟨i, j, rfl⟩ | ⟨q, rfl⟩
    · simp [frValExpr, isPriceBound]
    · simp [frValExpr, isPriceBound]

/-- Witness for the amended C6 on the one-edge network: the hypotheses hold
for the pipeline state and no constraint of `csW` is a bare price bound. -/
theorem claim_C6_amended_witness :
    (addConstraints pipeW.1 pipeW.2.1 pipeW.2.2 dsW = .ok csW)
    ∧ csW.all (fun c => !isPriceBound c) = true := by
  refine ⟨by rfl, ?_⟩
  apply List.all_eq_true.mpr
  intro c hc
  have := (claim_C6_amended pipeW.1 pipeW.2.1 pipeW.2.2 dsW csW
    (by decide)
    (by
      intro l hl fr hfr
      have hp : pipeW.2.2 = [[FRVal.fvar (.flow 0 0)]] := by rfl
      rw [hp] at hl
      simp only [List.mem_singleton] at hl
      subst hl
      simp only [List.mem_singleton] at hfr
      subst hfr
      exact Or.inl ⟨0, 0, rfl⟩)
    (by rfl)).2 c hc
  simp [this]

end DP
